import Mathlib

/-!
Verification of the vortex RL rollout core: a shallow embedding of
`openhands/rl` (env client, rollout strategies, controller, storage)
with theorems settling the specification claims.

Conventions of the embedding:
* Python floats carrying rewards are modelled as `ℚ` (they are only
  stored, compared and averaged, never rounded).
* The opaque text-generation capability (`model.generate` composed with
  `tokenizer.decode`) is modelled as a function `gen : Nat → String → String`
  receiving a call counter (modelling fresh randomness per call) and the
  transcript text.  The tokenizer's `encode` is `tok : String → List Nat`.
* An environment client is a value of a state type `σ` together with an
  `EnvModel σ` giving the behaviour of `step`/`reset`/`observe`;
  `copy.deepcopy(client)` is value copying of the `σ` state.
* Fallible Python code (exceptions) is modelled with `Except String`.
-/

namespace VortexRL

/-- Role tag of a conversation message (`"from"` key: `"human"` / `"gpt"`). -/
inductive Role : Type where
| human : Role
| gpt : Role
deriving DecidableEq, Repr

/-- `ConversationMessage` dict: keys `from`, `loss`, `value`. -/
structure ConversationMessage : Type where
  from_ : Role
  loss : Option Bool
  value : String
deriving DecidableEq, Repr

/-- Message `{"from": "human", "loss": None, "value": v}`. -/
def mkHuman (v : String) : ConversationMessage := ⟨Role.human, none, v⟩

/-- Message `{"from": "gpt", "loss": True, "value": v}`. -/
def mkGpt (v : String) : ConversationMessage := ⟨Role.gpt, some true, v⟩

/-- `StepOutput` dataclass from `openhands/rl/env.py`. -/
structure StepOutput : Type where
  state : String
  reward : ℚ
  done : Bool
deriving DecidableEq, Repr

/-- `ExperienceOutput` from `openhands/rl/types.py`. -/
structure ExperienceOutput : Type where
  conversation : List ConversationMessage
  reward : ℚ
  text : String
  seq_ids : List Nat
  attention_mask : List Nat
  action_mask : List Nat
deriving DecidableEq, Repr

/-- Behaviour of an environment client over a client-state type `σ`
(the abstract `BaseEnvClient` contract: `step`, `reset`, `observe`). -/
structure EnvModel (σ : Type) : Type where
  step : σ → String → StepOutput × σ
  reset : σ → Nat → σ
  observe : σ → String

/-- Transcript text building shared by all strategies: concatenate
one `"\nHuman: "`/`"\nAssistant: "`-labelled line per message, in order. -/
def buildText (conv : List ConversationMessage) : String :=
  conv.foldl
    (fun t m =>
      match m.from_ with
      | Role.human => t ++ "\nHuman: " ++ m.value
      | Role.gpt => t ++ "\nAssistant: " ++ m.value)
    ""

/-- `BaseRolloutStrategy._create_experience_output`: tokenize the text,
attention mask all ones, action mask all zeros. -/
def createExperienceOutput (tok : String → List Nat)
    (conversation : List ConversationMessage) (reward : ℚ) (text : String) :
    ExperienceOutput :=
  let tokenized := tok text
  { conversation := conversation
    reward := reward
    text := text
    seq_ids := tokenized
    attention_mask := List.replicate tokenized.length 1
    action_mask := List.replicate tokenized.length 0 }

/-! ## Sequential strategy (`StandardReActStrategy.execute`) -/

/-- The main interaction loop of `StandardReActStrategy.execute`,
with `max_rounds - rounds` as the structural counter.  Returns the final
conversation, text, last observed reward and generation-call counter.
The Python loop exits when the environment reports `done` or when the
round counter reaches the caller-supplied maximum. -/
def reactLoop {σ : Type} (E : EnvModel σ) (gen : Nat → String → String) :
    Nat → σ → List ConversationMessage → String → ℚ → Nat →
    List ConversationMessage × String × ℚ × Nat
| 0, _, conv, text, r, ctr => (conv, text, r, ctr)
| Nat.succ k, s, conv, text, _, ctr =>
  let g := gen ctr text
  let conv1 := conv ++ [mkGpt g]
  let text1 := text ++ "\nAssistant: " ++ g
  let (out, s') := E.step s g
  let conv2 := conv1 ++ [mkHuman out.state]
  let text2 := text1 ++ "\nHuman: " ++ out.state
  if out.done then (conv2, text2, out.reward, ctr + 1)
  else reactLoop E gen k s' conv2 text2 out.reward (ctr + 1)

/-- `StandardReActStrategy.execute`: seed the conversation with
`client.conversation_start` plus the initial observation as a Human turn,
run the loop, package exactly one `ExperienceOutput` carrying the last
observed reward (`0.0` before any step). -/
def reactExecute {σ : Type} (E : EnvModel σ) (gen : Nat → String → String)
    (tok : String → List Nat) (convStart : List ConversationMessage)
    (s : σ) (initialObservation : String) (maxRounds : Nat) :
    List ExperienceOutput :=
  let conv0 := convStart ++ [mkHuman initialObservation]
  let text0 := buildText conv0
  let res := reactLoop E gen maxRounds s conv0 text0 0 0
  [createExperienceOutput tok res.1 res.2.2.1 res.2.1]

/-- Derived observation function: the list of environment transitions
(`StepOutput`s) actually performed by the sequential loop, in order.
It mirrors the loop's text threading and stopping conditions exactly. -/
def reactSteps {σ : Type} (E : EnvModel σ) (gen : Nat → String → String) :
    Nat → σ → String → Nat → List StepOutput
| 0, _, _, _ => []
| Nat.succ k, s, text, ctr =>
  let g := gen ctr text
  let text1 := text ++ "\nAssistant: " ++ g
  let (out, s') := E.step s g
  let text2 := text1 ++ "\nHuman: " ++ out.state
  out :: (if out.done then [] else reactSteps E gen k s' text2 (ctr + 1))

/-- Reward carried by the last transition of a list, with default `d` when
no transition happened (models "preserve whatever reward was last observed,
including 0.0 on zero completed rounds"). -/
def lastRewardD : List StepOutput → ℚ → ℚ
| [], d => d
| out :: rest, _ => lastRewardD rest out.reward

/-! ## Tree-Exploring strategy (`ToTStrategy`) -/

/-- `TrajectoryNode` dict from `openhands/rl/strategy.py`. -/
inductive TrajectoryNode : Type where
| mk (observation : String) (thought : String) (action : String)
    (reward : ℚ) (done : Bool) (children : List TrajectoryNode)
deriving Repr

def TrajectoryNode.observation : TrajectoryNode → String
| TrajectoryNode.mk o _ _ _ _ _ => o

def TrajectoryNode.action : TrajectoryNode → String
| TrajectoryNode.mk _ _ a _ _ _ => a

def TrajectoryNode.reward : TrajectoryNode → ℚ
| TrajectoryNode.mk _ _ _ r _ _ => r

def TrajectoryNode.children : TrajectoryNode → List TrajectoryNode
| TrajectoryNode.mk _ _ _ _ _ c => c

mutual

/-- `ToTStrategy._generate_tree`.  `b` is `self.num_branches`; the `Nat`
threaded last is the generation-call counter.  The current node starts with
default `reward 0.0 / done False / action ""` fields and, unless `max_rounds`
is exhausted, receives `b` branch children. -/
def generateTree {σ : Type} (b : Nat) (E : EnvModel σ)
    (gen : Nat → String → String) (maxRounds : Option Nat)
    (depth : Nat) (s : σ) (observation : String)
    (conversation : List ConversationMessage) (currentRound : Nat)
    (ctr : Nat) : TrajectoryNode × Nat :=
  if (match maxRounds with
      | some m => decide (m ≤ currentRound)
      | none => false) then
    (TrajectoryNode.mk observation "" "" 0 false [], ctr)
  else
    let text := buildText conversation
    let res := genBranches b E gen maxRounds depth s observation conversation
      text currentRound ctr b
    (TrajectoryNode.mk observation "" "" 0 false res.1, res.2)
termination_by (depth, b + 1)
decreasing_by
  exact Prod.Lex.right depth (Nat.lt_succ_of_le (Nat.le_refl b))

/-- The `for _ in range(self.num_branches)` loop of `_generate_tree`:
generate a candidate utterance, step an isolated copy of the client,
recurse when `depth > 1 and not done`.  `k` counts remaining iterations. -/
def genBranches {σ : Type} (b : Nat) (E : EnvModel σ)
    (gen : Nat → String → String) (maxRounds : Option Nat)
    (depth : Nat) (s : σ) (observation : String)
    (conversation : List ConversationMessage) (text : String)
    (currentRound : Nat) (ctr : Nat) (k : Nat) :
    List TrajectoryNode × Nat :=
  match k with
  | 0 => ([], ctr)
  | Nat.succ k' =>
    let g := gen ctr text
    let branchConv := conversation ++ [mkGpt g]
    let so := E.step s g
    let out := so.1
    let branchConv2 := branchConv ++ [mkHuman out.state]
    let cc :=
      if h : 1 < depth ∧ out.done = false then
        let sub := generateTree b E gen maxRounds (depth - 1) so.2 out.state
          branchConv2 (currentRound + 1) (ctr + 1)
        ([sub.1], sub.2)
      else ([], ctr + 1)
    let child := TrajectoryNode.mk observation "" g out.reward out.done cc.1
    let rest := genBranches b E gen maxRounds depth s observation conversation
      text currentRound cc.2 k'
    (child :: rest.1, rest.2)
termination_by (depth, k)
decreasing_by
  · simp_wf
    exact Prod.Lex.left _ _ (by omega)
  · simp_wf
    exact Prod.Lex.right depth (Nat.lt_succ_self k')

end

/-- Conversation rebuilt from a root-to-leaf path by `_extract_paths`:
non-empty observations become Human turns, non-empty actions Agent turns. -/
def pathToConversation : List (String × String) → List ConversationMessage
| [] => []
| (obs, act) :: rest =>
  ((if obs = "" then [] else [mkHuman obs]) ++
      (if act = "" then [] else [mkGpt act])) ++ pathToConversation rest

mutual

/-- `ToTStrategy._extract_paths`: walk the tree depth-first accumulating
`(observation, action)` pairs; at each leaf (empty `children`), package the
accumulated path as one `ExperienceOutput` carrying the leaf's reward. -/
def extractPaths (tok : String → List Nat) :
    TrajectoryNode → List (String × String) → List ExperienceOutput
| TrajectoryNode.mk obs _ act rew _ children, path =>
  let currentPath := path ++ [(obs, act)]
  match children with
  | [] =>
    let conversation := pathToConversation currentPath
    let text := buildText conversation
    [createExperienceOutput tok conversation rew text]
  | c :: cs => extractPathsList tok (c :: cs) currentPath

/-- The `for child in tree["children"]` loop of `_extract_paths`. -/
def extractPathsList (tok : String → List Nat) :
    List TrajectoryNode → List (String × String) → List ExperienceOutput
| [], _ => []
| c :: cs, path => extractPaths tok c path ++ extractPathsList tok cs path

end

mutual

/-- The leaves of a trajectory tree, in depth-first, branch order
(a node is a leaf iff its `children` list is empty). -/
def leavesDF : TrajectoryNode → List TrajectoryNode
| TrajectoryNode.mk obs th act rew dn children =>
  match children with
  | [] => [TrajectoryNode.mk obs th act rew dn []]
  | c :: cs => leavesDFList (c :: cs)

def leavesDFList : List TrajectoryNode → List TrajectoryNode
| [] => []
| c :: cs => leavesDF c ++ leavesDFList cs

end

mutual

/-- For each leaf (in depth-first order) the list of rewards of the step
calls along its root-to-leaf path.  A node records a step call exactly when
its `action` field is non-empty (synthetic nodes created by `_generate_tree`
itself carry `action = ""`, while branch children carry the generated,
stepped utterance). -/
def pathTraces : TrajectoryNode → List ℚ → List (List ℚ)
| TrajectoryNode.mk _ _ act rew _ children, acc =>
  let acc2 := if act = "" then acc else acc ++ [rew]
  match children with
  | [] => [acc2]
  | c :: cs => pathTracesList (c :: cs) acc2

def pathTracesList : List TrajectoryNode → List ℚ → List (List ℚ)
| [], _ => []
| c :: cs, acc => pathTraces c acc ++ pathTracesList cs acc

end

/-- `ToTStrategy.execute`: generate the tree starting from
`conversation_start ++ [human initial_observation]` at round `0`,
then extract every root-to-leaf path. -/
def totTree {σ : Type} (b : Nat) (E : EnvModel σ)
    (gen : Nat → String → String) (maxRounds : Option Nat) (depth : Nat)
    (convStart : List ConversationMessage) (s : σ)
    (initialObservation : String) (ctr : Nat) : TrajectoryNode :=
  (generateTree b E gen maxRounds depth s initialObservation
    (convStart ++ [mkHuman initialObservation]) 0 ctr).1

/-- The list of Experiences returned by `ToTStrategy.execute`. -/
def totExecute {σ : Type} (b : Nat) (E : EnvModel σ)
    (gen : Nat → String → String) (tok : String → List Nat)
    (maxRounds : Option Nat) (depth : Nat)
    (convStart : List ConversationMessage) (s : σ)
    (initialObservation : String) (ctr : Nat) : List ExperienceOutput :=
  extractPaths tok
    (totTree b E gen maxRounds depth convStart s initialObservation ctr) []

/-- Last element of a rational list, with default. -/
def lastQD : List ℚ → ℚ → ℚ
| [], d => d
| x :: xs, _ => lastQD xs x

/-! ## Concrete instances used for counterexamples and witnesses -/

/-- Deterministic environment: every step returns state `"next"`,
reward `1`, not done. -/
def envOneStep : EnvModel Unit :=
  ⟨fun _ _ => (⟨"next", 1, false⟩, ()), fun s _ => s, fun _ => "next"⟩

/-- Deterministic environment that terminates immediately with reward `7`. -/
def envDone : EnvModel Unit :=
  ⟨fun _ _ => (⟨"end", 7, true⟩, ()), fun s _ => s, fun _ => "end"⟩

/-- Generator constantly producing the utterance `"act"`. -/
def genAct : Nat → String → String := fun _ _ => "act"

/-- Trivial tokenizer. -/
def tokNil : String → List Nat := fun _ => []

/-! ## Networked environment client (`WebEnvClient`) -/

/-- Mutable fields of a `WebEnvClient` relevant to `step`/`reset`. -/
structure WebClientState : Type where
  current_state : String
  current_idx : Nat
deriving DecidableEq, Repr

/-- Outcome of the HTTP `POST /step` round-trip as seen by the client:
either a raised transport/decoding exception (with message `msg`), or a
decoded JSON object with the three optional fields. -/
inductive StepHttpResult : Type where
| failure (msg : String) : StepHttpResult
| success (state : Option String) (reward : Option ℚ) (done : Option Bool) :
    StepHttpResult
deriving DecidableEq, Repr

/-- `WebEnvClient.step`: on success, read `data["state"]` (a missing key
raises `KeyError('state')` inside the `try`, caught like a transport
failure, leaving `current_state` unchanged), then default `reward` to
`0.0` and `done` to `False`; any caught exception yields the diagnostic
`StepOutput` with `done = True` and `reward = 0.0`. -/
def webStep (resp : StepHttpResult) (c : WebClientState) :
    StepOutput × WebClientState :=
  match resp with
  | StepHttpResult.failure msg =>
    (⟨"Error: " ++ msg, 0, true⟩, c)
  | StepHttpResult.success st rw dn =>
    match st with
    | none => (⟨"Error: " ++ "'state'", 0, true⟩, c)
    | some sv =>
      (⟨sv, rw.getD 0, dn.getD false⟩, { c with current_state := sv })

/-! ## Trajectory storage (`storage.py`) -/

/-- The trajectory dict persisted by the controller:
`{reward, conversation, text}`. -/
structure Traj : Type where
  reward : ℚ
  conversation : List ConversationMessage
  text : String
deriving DecidableEq, Repr

/-- A persisted record: the JSON object written by
`FileTrajectoryStorage.save_trajectories` (and, with a `datetime` in place
of the ISO string — order-isomorphic, modelled identically — the MongoDB
document). -/
structure TrajRecord : Type where
  id : String
  env_name : String
  task_id : Nat
  timestamp : String
  metadata : List (String × String)
  trajectory : Traj
deriving DecidableEq, Repr

/-- Model of the file-storage directory tree: one entry per `env_name`
sub-directory, holding `(file id, record)` pairs in enumeration order. -/
abbrev FileStore := List (String × List (String × TrajRecord))

/-- The per-trajectory body of `save_trajectories`: zip task ids with
trajectories, generate one fresh id per item (`uuid.uuid4()` modelled by
the supply `genId` applied to successive counter values), stamp each with
its own `datetime.now().isoformat()` (the supply `now`, same counter),
and produce the file contents in creation order. -/
def saveRecords (genId : Nat → String) (now : Nat → String) (env : String)
    (meta : List (String × String)) :
    List (Nat × Traj) → Nat → List String × List (String × TrajRecord)
| [], _ => ([], [])
| (tid, tr) :: rest, n =>
  let fid := genId n
  let rec1 : TrajRecord := ⟨fid, env, tid, now n, meta, tr⟩
  let res := saveRecords genId now env meta rest (n + 1)
  (fid :: res.1, (fid, rec1) :: res.2)

/-- Write files into the `env` directory (created when absent). -/
def fsAddFiles : FileStore → String → List (String × TrajRecord) → FileStore
| [], env, files => [(env, files)]
| (e, fl) :: rest, env, files =>
  if e == env then (e, fl ++ files) :: rest
  else (e, fl) :: fsAddFiles rest env files

/-- `FileTrajectoryStorage.save_trajectories`. -/
def saveTrajectories (genId : Nat → String) (now : Nat → String)
    (fs : FileStore)
    (nextId : Nat) (env : String) (taskIds : List Nat) (trajs : List Traj)
    (meta : List (String × String)) : List String × FileStore × Nat :=
  let res := saveRecords genId now env meta (taskIds.zip trajs) nextId
  (res.1, fsAddFiles fs env res.2, nextId + res.1.length)

/-- `FileTrajectoryStorage.get_trajectory`: scan every environment
directory for a file named `<id>.json`; `none` models Python's `None`. -/
def getTrajectory : FileStore → String → Option TrajRecord
| [], _ => none
| (_, files) :: rest, tid =>
  match files.find? (fun p => p.1 == tid) with
  | some p => some p.2
  | none => getTrajectory rest tid

/-- Top-level record fields a listing query may sort by. -/
inductive SortField : Type where
| id : SortField
| env_name : SortField
| task_id : SortField
| timestamp : SortField
deriving DecidableEq, Repr

/-- A sort-key value: a string or an integer (`task_id`); every record
carries every field, so within one query key types are uniform. -/
inductive SKey : Type where
| strK (s : String) : SKey
| natK (n : Nat) : SKey
deriving DecidableEq, Repr

def sortKey : SortField → TrajRecord → SKey
| SortField.id, r => SKey.strK r.id
| SortField.env_name, r => SKey.strK r.env_name
| SortField.task_id, r => SKey.natK r.task_id
| SortField.timestamp, r => SKey.strK r.timestamp

/-- Ordering of sort-key values (cross-constructor cases never arise in a
single query; they are fixed arbitrarily to keep the order total). -/
def skeyLe : SKey → SKey → Bool
| SKey.strK a, SKey.strK b => decide (a ≤ b)
| SKey.natK a, SKey.natK b => decide (a ≤ b)
| SKey.strK _, SKey.natK _ => true
| SKey.natK _, SKey.strK _ => false

/-- The comparison used for the listing sort (`reverse=True` /
direction `-1` for `"desc"`; any other `sort_order` string means
ascending in both backends). -/
def listLe (f : SortField) (ord : String) (a b : TrajRecord) : Bool :=
  if ord.toLower == "desc" then skeyLe (sortKey f b) (sortKey f a)
  else skeyLe (sortKey f a) (sortKey f b)

/-- `FileTrajectoryStorage.get_trajectories`: select directories by
`env_name` (all of them when absent), parse every file, filter by
`task_id`, sort (Python's stable `list.sort(key=..., reverse=...)`,
modelled by the stable `List.insertionSort`), then slice
`[offset : offset + limit]`. -/
def fileGetTrajectories (fs : FileStore) (envName : Option String)
    (taskId : Option Nat) (limit offset : Nat) (sortBy : SortField)
    (sortOrder : String) : List TrajRecord :=
  let dirs : FileStore := match envName with
    | some e => fs.filter (fun d => d.1 == e)
    | none => fs
  let collected := (dirs.flatMap (fun d => d.2.map Prod.snd)).filter
    (fun r => match taskId with
      | some t => r.task_id == t
      | none => true)
  let sorted := List.insertionSort
    (fun a b => listLe sortBy sortOrder a b = true) collected
  (sorted.drop offset).take limit

/-- The equality query document built by
`MongoDBTrajectoryStorage.get_trajectories`. -/
def mongoQuery (envName : Option String) (taskId : Option Nat)
    (r : TrajRecord) : Bool :=
  (match envName with
    | some e => r.env_name == e
    | none => true) &&
  (match taskId with
    | some t => r.task_id == t
    | none => true)

/-- All records of the file store in directory-enumeration order. -/
def recordsOf (fs : FileStore) : List TrajRecord :=
  fs.flatMap (fun d => d.2.map Prod.snd)

/-- Modelled from the spec: `MongoDBTrajectoryStorage.get_trajectories`
delegates filtering, sorting and pagination to MongoDB's native `find`,
`sort`, `skip` and `limit` (the `pymongo` client library and the database
engine are external to this repository).  `find` filters by the equality
query built from `env_name`/`task_id`; `sort` orders by the named field
(direction `-1` when `sort_order` is `"desc"`); `skip` drops `offset`
documents; MongoDB's documented `limit(0)` means **no limit** (unlike
Python list slicing).  The collection is the list of documents in
insertion order; MongoDB's sort (unspecified for ties) is modelled with
the same stable sort, which coincides with every correct sort whenever
the compared keys are pairwise distinct. -/
def mongoGetTrajectories (docs : List TrajRecord) (envName : Option String)
    (taskId : Option Nat) (limit offset : Nat) (sortBy : SortField)
    (sortOrder : String) : List TrajRecord :=
  let filtered := docs.filter (mongoQuery envName taskId)
  let sorted := List.insertionSort
    (fun a b => listLe sortBy sortOrder a b = true) filtered
  let paged := sorted.drop offset
  if limit == 0 then paged else paged.take limit

/-! ## Search-guided strategy (`MCTSStrategy`) -/

/-- The candidate-generation loop of `_run_mcts`: five generations from
the current text (`for _ in range(5)`); the diversified sampling
configuration is a generation-time concern, modelled by the advancing
call counter. -/
def mctsCandidates (gen : Nat → String → String) (text : String)
    (ctr : Nat) : List String × Nat :=
  ((List.range 5).map (fun i => gen (ctr + i) text), ctr + 5)

/-- The inner `while not done and sim_rounds < 5` simulation loop.  Note
the source rebuilds `sim_text` each iteration from the *original* text
plus the candidate action and only the latest state. -/
def simLoop {σ : Type} (E : EnvModel σ) (gen : Nat → String → String)
    (text action : String) :
    Nat → σ → String → ℚ → Nat → ℚ × Nat
| 0, _, _, r, ctr => (r, ctr)
| Nat.succ k, s, state, _, ctr =>
  let simText := text ++ "\nAssistant: " ++ action ++ "\nHuman: " ++ state
  let a := gen ctr simText
  let so := E.step s a
  if so.1.done then (so.1.reward, ctr + 1)
  else simLoop E gen text action k so.2 so.1.state so.1.reward (ctr + 1)

/-- One simulation of a candidate action: step a fresh deep copy of the
client with the candidate, then extend with up to 5 plain generations. -/
def simOne {σ : Type} (E : EnvModel σ) (gen : Nat → String → String)
    (s : σ) (text action : String) (ctr : Nat) : ℚ × Nat :=
  let so := E.step s action
  if so.1.done then (so.1.reward, ctr)
  else simLoop E gen text action 5 so.2 so.1.state so.1.reward ctr

/-- Accumulate the final rewards of `n` simulations of one candidate. -/
def simulateAction {σ : Type} (E : EnvModel σ)
    (gen : Nat → String → String) (s : σ) (text action : String) :
    Nat → Nat → ℚ × Nat
| 0, ctr => (0, ctr)
| Nat.succ n, ctr =>
  let one := simOne E gen s text action ctr
  let rest := simulateAction E gen s text action n one.2
  (one.1 + rest.1, rest.2)

/-- Python dict insert-or-overwrite preserving first-insertion order
(`action_scores[action] = score`). -/
def dictInsert : List (String × ℚ) → String → ℚ → List (String × ℚ)
| [], k, v => [(k, v)]
| (k', v') :: rest, k, v =>
  if k' == k then (k', v) :: rest else (k', v') :: dictInsert rest k v

/-- `max(action_scores.items(), key=lambda x: x[1])[0]`: the first
maximum in iteration order (a later entry wins only when strictly
greater). -/
def maxByFirst : String → ℚ → List (String × ℚ) → String
| a, _, [] => a
| a, v, (a', v') :: rest =>
  if v < v' then maxByFirst a' v' rest else maxByFirst a v rest

/-- The per-candidate scoring loop of `_run_mcts`: run
`num_simulations // len(candidate_actions)` simulations per candidate and
average — the division `total / sims_per` raises `ZeroDivisionError`
when the integer division gave `0` (i.e. `num_simulations < 5`). -/
def scoreCandidates {σ : Type} (E : EnvModel σ)
    (gen : Nat → String → String) (s : σ) (text : String) (simsPer : Nat) :
    List String → Nat → List (String × ℚ) →
    Except String (List (String × ℚ)) × Nat
| [], ctr, acc => (Except.ok acc, ctr)
| a :: rest, ctr, acc =>
  let tot := simulateAction E gen s text a simsPer ctr
  if simsPer == 0 then (Except.error "ZeroDivisionError", tot.2)
  else scoreCandidates E gen s text simsPer rest tot.2
    (dictInsert acc a (tot.1 / (simsPer : ℚ)))

/-- `MCTSStrategy._run_mcts`: generate 5 candidates, score each by mean
simulated reward, return the first highest-scoring candidate. -/
def runMcts {σ : Type} (numSims : Nat) (E : EnvModel σ)
    (gen : Nat → String → String) (s : σ) (text : String) (ctr : Nat) :
    Except String String × Nat :=
  let cands := mctsCandidates gen text ctr
  let simsPer := numSims / cands.1.length
  let scored := scoreCandidates E gen s text simsPer cands.1 cands.2 []
  match scored.1 with
  | Except.ok scores =>
    (match scores with
     | [] => (Except.error "max arg is an empty sequence", scored.2)
     | (a, v) :: rest => (Except.ok (maxByFirst a v rest), scored.2))
  | Except.error e => (Except.error e, scored.2)

/-- The outer round loop of `MCTSStrategy.execute`: per round, choose the
action by `_run_mcts` on a deep copy of the client, then step the real
client, exactly as the sequential strategy would. -/
def mctsLoop {σ : Type} (numSims : Nat) (E : EnvModel σ)
    (gen : Nat → String → String) :
    Nat → σ → List ConversationMessage → String → ℚ → Nat →
    Except String (List ConversationMessage × String × ℚ) × Nat
| 0, _, conv, text, r, ctr => (Except.ok (conv, text, r), ctr)
| Nat.succ k, s, conv, text, _, ctr =>
  let best := runMcts numSims E gen s text ctr
  match best.1 with
  | Except.error e => (Except.error e, best.2)
  | Except.ok a =>
    let conv1 := conv ++ [mkGpt a]
    let text1 := text ++ "\nAssistant: " ++ a
    let so := E.step s a
    let conv2 := conv1 ++ [mkHuman so.1.state]
    let text2 := text1 ++ "\nHuman: " ++ so.1.state
    if so.1.done then (Except.ok (conv2, text2, so.1.reward), best.2)
    else mctsLoop numSims E gen k so.2 conv2 text2 so.1.reward best.2

/-- Derived observation function: the environment transitions committed
on the real client by the MCTS outer loop, in order (empty from the point
a `_run_mcts` call raises). -/
def mctsSteps {σ : Type} (numSims : Nat) (E : EnvModel σ)
    (gen : Nat → String → String) :
    Nat → σ → String → Nat → List StepOutput
| 0, _, _, _ => []
| Nat.succ k, s, text, ctr =>
  match (runMcts numSims E gen s text ctr).1 with
  | Except.error _ => []
  | Except.ok a =>
    let so := E.step s a
    so.1 :: (if so.1.done then []
      else mctsSteps numSims E gen k so.2
        (text ++ "\nAssistant: " ++ a ++ "\nHuman: " ++ so.1.state)
        (runMcts numSims E gen s text ctr).2)

/-- `MCTSStrategy.execute`: an uncaught `ZeroDivisionError` from scoring
propagates (`Except.error`); otherwise exactly one Experience results. -/
def mctsExecute {σ : Type} (numSims : Nat) (E : EnvModel σ)
    (gen : Nat → String → String) (tok : String → List Nat)
    (convStart : List ConversationMessage) (s : σ)
    (initialObservation : String) (maxRounds : Nat) :
    Except String (List ExperienceOutput) :=
  let conv0 := convStart ++ [mkHuman initialObservation]
  let text0 := buildText conv0
  let res := mctsLoop numSims E gen maxRounds s conv0 text0 0 0
  match res.1 with
  | Except.ok fin =>
    Except.ok [createExperienceOutput tok fin.1 fin.2.2 fin.2.1]
  | Except.error e => Except.error e

/-! ## Controller (`RLController.rollout` / `_rollout_one`) -/

/-- Abstract storage backend as the controller sees it:
`save_trajectories` either returns the generated ids together with the
updated backend state, or raises. -/
structure StoreModel (τ : Type) : Type where
  save : τ → String → List Nat → List Traj →
    List (String × String) → Except String (List String × τ)

/-- `_save_trajectories`' conversion of an `ExperienceOutput` into the
persisted dict `{reward, conversation, text}`. -/
def expToTraj (e : ExperienceOutput) : Traj :=
  ⟨e.reward, e.conversation, e.text⟩

/-- `RLController._rollout_one`: reset the client to `idx`, observe, run
the strategy, and — when saving is enabled and experiences are non-empty —
persist them; a raised storage error propagates out of `_rollout_one`
while the client-state and strategy effects persist. -/
def rolloutOne {σ τ : Type} (E : EnvModel σ)
    (strat : σ → String → List ExperienceOutput × σ) (store : StoreModel τ)
    (saveFlag : Bool) (meta : List (String × String)) (envName : String)
    (idx : Nat) (s : σ) (t : τ) :
    Except String (List ExperienceOutput) × σ × τ :=
  let s1 := E.reset s idx
  let obs := E.observe s1
  let res := strat s1 obs
  if saveFlag && !res.1.isEmpty then
    match store.save t envName (List.replicate res.1.length idx)
        (res.1.map expToTraj) meta with
    | Except.ok r => (Except.ok res.1, res.2, r.2)
    | Except.error e => (Except.error e, res.2, t)
  else (Except.ok res.1, res.2, t)

/-- The sequential branch of `RLController.rollout`: run the indices in
order against the single shared client, catching any per-index exception
(whose results are dropped) and continuing with the next index. -/
def rolloutSeq {σ τ : Type} (E : EnvModel σ)
    (strat : σ → String → List ExperienceOutput × σ) (store : StoreModel τ)
    (saveFlag : Bool) (meta : List (String × String)) (envName : String) :
    List Nat → σ → τ → List ExperienceOutput × σ × τ
| [], s, t => ([], s, t)
| idx :: rest, s, t =>
  let one := rolloutOne E strat store saveFlag meta envName idx s t
  let res := rolloutSeq E strat store saveFlag meta envName rest
    one.2.1 one.2.2
  match one.1 with
  | Except.ok exps => (exps ++ res.1, res.2)
  | Except.error _ => res

/-- `RLController.rollout` over the normalised `idxs : List (List Nat)`
form: `task = self.tasks[0]`, `task_idxs = idxs[0]`,
`client = task.clients[0]`.  `none` models the uncaught `IndexError` on an
empty `tasks` or `idxs` list; an empty `clients` list makes every
per-index rollout fail with a *caught* `IndexError`, yielding no
results. -/
def controllerRollout {σ τ : Type} (E : EnvModel σ)
    (strat : σ → String → List ExperienceOutput × σ) (store : StoreModel τ)
    (saveFlag : Bool) (meta : List (String × String))
    (tasks : List (String × List σ)) (idxss : List (List Nat)) (t : τ) :
    Option (List ExperienceOutput × List (String × List σ) × τ) :=
  match tasks, idxss with
  | [], _ => none
  | _ :: _, [] => none
  | (name, clients) :: ts, is0 :: _ =>
    match clients with
    | [] => some ([], (name, []) :: ts, t)
    | c :: cs =>
      let res := rolloutSeq E strat store saveFlag meta name is0 c t
      some (res.1, (name, res.2.1 :: cs) :: ts, res.2.2)

/-! ## Further concrete instances (controller checks) -/

/-- Environment that terminates at once with reward `0`. -/
def envC2 : EnvModel Unit :=
  ⟨fun s _ => (⟨"s", 0, true⟩, s), fun s _ => s, fun _ => "o"⟩

/-- Strategy producing exactly one Experience from the observation. -/
def stratOne : Unit → String → List ExperienceOutput × Unit :=
  fun s obs => ([createExperienceOutput tokNil [mkHuman obs] 0 obs], s)

/-- Storage whose save always raises. -/
def storeFail : StoreModel Unit :=
  ⟨fun _ _ _ _ _ => Except.error "disk full"⟩

/-- Storage whose save always succeeds without effect. -/
def storeNoop : StoreModel Unit :=
  ⟨fun t _ _ _ _ => Except.ok ([], t)⟩

/-- Environment whose server-side state (a counter) survives `reset`:
`observe` shows the counter, `step` increments it. -/
def envShared : EnvModel Nat :=
  { step := fun s _ => (⟨"", 0, true⟩, s + 1)
    reset := fun s _ => s
    observe := fun s => toString s }

/-- Strategy that performs one environment step (mutating the client)
and returns one Experience recording the initial observation. -/
def stratStep : Nat → String → List ExperienceOutput × Nat :=
  fun s obs =>
    let so := envShared.step s "a"
    ([createExperienceOutput tokNil [mkHuman obs] 0 obs], so.2)

/-- A single record for the storage listing counterexample. -/
def rec7 : TrajRecord := ⟨"a", "web", 0, "t0", [], ⟨0, [], ""⟩⟩

/-- File store holding exactly `rec7`. -/
def fs7 : FileStore := [("web", [("a", rec7)])]

/-- Mongo collection holding exactly `rec7`. -/
def docs7 : List TrajRecord := [rec7]

/-! ## Theorems -/

theorem reactLoop_reward_eq {σ : Type} (E : EnvModel σ)
    (gen : Nat → String → String) :
    ∀ (k : Nat) (s : σ) (conv : List ConversationMessage) (text : String)
      (r : ℚ) (ctr : Nat),
      (reactLoop E gen k s conv text r ctr).2.2.1 =
        lastRewardD (reactSteps E gen k s text ctr) r := by
  intro k
  induction k with
  | zero => intro s conv text r ctr; simp [reactLoop, reactSteps, lastRewardD]
  | succ k ih =>
    intro s conv text r ctr
    rcases h : E.step s (gen ctr text) with ⟨out, s'⟩
    cases hd : out.done
    · simp only [reactLoop, reactSteps, h, hd, Bool.false_eq_true, if_false,
        lastRewardD]
      exact ih _ _ _ _ _
    · simp [reactLoop, reactSteps, h, hd, lastRewardD]

theorem reactSteps_length_le {σ : Type} (E : EnvModel σ)
    (gen : Nat → String → String) :
    ∀ (k : Nat) (s : σ) (text : String) (ctr : Nat),
      (reactSteps E gen k s text ctr).length ≤ k := by
  intro k
  induction k with
  | zero => intro s text ctr; simp [reactSteps]
  | succ k ih =>
    intro s text ctr
    rcases h : E.step s (gen ctr text) with ⟨out, s'⟩
    cases hd : out.done
    · simp only [reactSteps, h, hd, Bool.false_eq_true, if_false,
        List.length_cons]
      exact Nat.succ_le_succ (ih _ _ _)
    · simp [reactSteps, h, hd]

theorem reactSteps_dropLast_not_done {σ : Type} (E : EnvModel σ)
    (gen : Nat → String → String) :
    ∀ (k : Nat) (s : σ) (text : String) (ctr : Nat),
      ∀ out ∈ (reactSteps E gen k s text ctr).dropLast, out.done = false := by
  intro k
  induction k with
  | zero => intro s text ctr; simp [reactSteps]
  | succ k ih =>
    intro s text ctr
    rcases h : E.step s (gen ctr text) with ⟨out, s'⟩
    cases hd : out.done
    · simp only [reactSteps, h, hd, Bool.false_eq_true, if_false]
      intro x hx
      rcases hsteps : reactSteps E gen k s'
          (text ++ "\nAssistant: " ++ gen ctr text ++ "\nHuman: " ++ out.state)
          (ctr + 1) with _ | ⟨a, l⟩
      · rw [hsteps] at hx; simp at hx
      · rw [hsteps, List.dropLast_cons₂] at hx
        rcases List.mem_cons.mp hx with rfl | hx'
        · exact hd
        · have h2 := ih s'
            (text ++ "\nAssistant: " ++ gen ctr text ++ "\nHuman: " ++ out.state)
            (ctr + 1) x
          rw [hsteps] at h2
          exact h2 hx'
    · simp [reactSteps, h, hd]

theorem lastQD_append_single (acc : List ℚ) (r d : ℚ) :
    lastQD (acc ++ [r]) d = r := by
  induction acc generalizing d with
  | nil => simp [lastQD]
  | cons x xs ih => simpa [lastQD] using ih x

mutual

theorem extractPaths_map_reward (tok : String → List Nat) (t : TrajectoryNode)
    (p : List (String × String)) :
    (extractPaths tok t p).map ExperienceOutput.reward =
      (leavesDF t).map TrajectoryNode.reward := by
  rcases t with ⟨obs, th, act, rew, dn, children⟩
  rcases children with _ | ⟨c, cs⟩
  · simp [extractPaths, leavesDF, createExperienceOutput, TrajectoryNode.reward]
  · simp only [extractPaths, leavesDF]
    exact extractPathsList_map_reward tok (c :: cs) (p ++ [(obs, act)])

theorem extractPathsList_map_reward (tok : String → List Nat)
    (l : List TrajectoryNode) (p : List (String × String)) :
    (extractPathsList tok l p).map ExperienceOutput.reward =
      (leavesDFList l).map TrajectoryNode.reward := by
  rcases l with _ | ⟨c, cs⟩
  · simp [extractPathsList, leavesDFList]
  · simp only [extractPathsList, leavesDFList, List.map_append]
    rw [extractPaths_map_reward tok c p, extractPathsList_map_reward tok cs p]

end

theorem extractPaths_length (tok : String → List Nat) (t : TrajectoryNode)
    (p : List (String × String)) :
    (extractPaths tok t p).length = (leavesDF t).length := by
  have h := congrArg List.length (extractPaths_map_reward tok t p)
  simpa using h

mutual

theorem generateTree_leaves_le {σ : Type} (b : Nat) (E : EnvModel σ)
    (gen : Nat → String → String) (maxRounds : Option Nat) (depth : Nat)
    (s : σ) (obs : String) (conv : List ConversationMessage)
    (cr ctr : Nat) (hb : 1 ≤ b) (hd : 1 ≤ depth) :
    (leavesDF (generateTree b E gen maxRounds depth s obs conv cr ctr).1).length
      ≤ b ^ depth := by
  have hpow : 1 ≤ b ^ depth := pow_pos (by omega : 0 < b) depth
  rw [generateTree.eq_def]
  dsimp only
  split
  · simpa [leavesDF] using hpow
  · rcases hch : (genBranches b E gen maxRounds depth s obs conv
        (buildText conv) cr ctr b).1 with _ | ⟨c, cs⟩
    · simpa [leavesDF, hch] using hpow
    · simp only [leavesDF, hch]
      have h := genBranches_leaves_le b E gen maxRounds depth s obs conv
        (buildText conv) cr ctr b hb hd
      rw [hch] at h
      calc (leavesDFList (c :: cs)).length ≤ b * b ^ (depth - 1) := h
        _ = b ^ depth := by
            conv_rhs => rw [show depth = (depth - 1) + 1 by omega]
            rw [pow_succ, Nat.mul_comm]
termination_by (depth, b + 1)

theorem genBranches_leaves_le {σ : Type} (b : Nat) (E : EnvModel σ)
    (gen : Nat → String → String) (maxRounds : Option Nat) (depth : Nat)
    (s : σ) (obs : String) (conv : List ConversationMessage) (text : String)
    (cr ctr k : Nat) (hb : 1 ≤ b) (hd : 1 ≤ depth) :
    (leavesDFList (genBranches b E gen maxRounds depth s obs conv text
        cr ctr k).1).length ≤ k * b ^ (depth - 1) := by
  match k with
  | 0 => simp [genBranches, leavesDFList]
  | Nat.succ k' =>
    have hpow : 1 ≤ b ^ (depth - 1) := pow_pos (by omega : 0 < b) (depth - 1)
    rcases hso : E.step s (gen ctr text) with ⟨out, s2⟩
    rw [genBranches.eq_def]
    simp only [hso]
    by_cases h : 1 < depth ∧ out.done = false
    · rw [dif_pos h]
      have hsub := generateTree_leaves_le b E gen maxRounds (depth - 1) s2
        out.state ((conv ++ [mkGpt (gen ctr text)]) ++ [mkHuman out.state])
        (cr + 1) (ctr + 1) hb (by omega)
      have hrest := genBranches_leaves_le b E gen maxRounds depth s obs conv
        text cr
        (generateTree b E gen maxRounds (depth - 1) s2 out.state
          ((conv ++ [mkGpt (gen ctr text)]) ++ [mkHuman out.state])
          (cr + 1) (ctr + 1)).2 k' hb hd
      simp only [leavesDFList, leavesDF, List.length_append, List.append_nil]
      calc (leavesDF _).length + (leavesDFList _).length
          ≤ b ^ (depth - 1) + k' * b ^ (depth - 1) :=
            Nat.add_le_add hsub hrest
        _ = (k' + 1) * b ^ (depth - 1) := by ring
    · rw [dif_neg h]
      have hrest := genBranches_leaves_le b E gen maxRounds depth s obs conv
        text cr (ctr + 1) k' hb hd
      simp only [leavesDFList, leavesDF, List.length_append, List.length_cons,
        List.length_nil]
      calc 1 + (leavesDFList _).length
          ≤ b ^ (depth - 1) + k' * b ^ (depth - 1) :=
            Nat.add_le_add hpow hrest
        _ = (k' + 1) * b ^ (depth - 1) := by ring
termination_by (depth, k)

end

theorem genBranches_ne_nil {σ : Type} (b : Nat) (E : EnvModel σ)
    (gen : Nat → String → String) (maxRounds : Option Nat) (depth : Nat)
    (s : σ) (obs : String) (conv : List ConversationMessage) (text : String)
    (cr ctr k : Nat) :
    (genBranches b E gen maxRounds depth s obs conv text cr ctr
      (k + 1)).1 ≠ [] := by
  rw [genBranches.eq_def]
  dsimp only
  simp

mutual

theorem generateTree_leaves_action {σ : Type} (b : Nat) (E : EnvModel σ)
    (gen : Nat → String → String) (depth : Nat) (s : σ) (obs : String)
    (conv : List ConversationMessage) (cr ctr : Nat)
    (hb : 1 ≤ b) (hgen : ∀ n t, gen n t ≠ "") :
    ∀ leaf ∈ leavesDF (generateTree b E gen none depth s obs conv cr ctr).1,
      leaf.action ≠ "" := by
  rw [generateTree.eq_def]
  dsimp only
  rcases hch : (genBranches b E gen none depth s obs conv (buildText conv)
      cr ctr b).1 with _ | ⟨c, cs⟩
  · obtain ⟨b', rfl⟩ : ∃ b', b = b' + 1 := ⟨b - 1, by omega⟩
    exact absurd hch (genBranches_ne_nil (b' + 1) E gen none depth s obs conv
      (buildText conv) cr ctr b')
  · simp only [leavesDF, hch]
    have h := genBranches_leaves_action b E gen depth s obs conv
      (buildText conv) cr ctr b hb hgen
    rw [hch] at h
    exact h
termination_by (depth, b + 1)

theorem genBranches_leaves_action {σ : Type} (b : Nat) (E : EnvModel σ)
    (gen : Nat → String → String) (depth : Nat) (s : σ) (obs : String)
    (conv : List ConversationMessage) (text : String) (cr ctr k : Nat)
    (hb : 1 ≤ b) (hgen : ∀ n t, gen n t ≠ "") :
    ∀ leaf ∈ leavesDFList (genBranches b E gen none depth s obs conv text
      cr ctr k).1, leaf.action ≠ "" := by
  match k with
  | 0 => simp [genBranches, leavesDFList]
  | Nat.succ k' =>
    rcases hso : E.step s (gen ctr text) with ⟨out, s2⟩
    rw [genBranches.eq_def]
    simp only [hso]
    intro leaf hleaf
    by_cases h : 1 < depth ∧ out.done = false
    · rw [dif_pos h] at hleaf
      simp only [leavesDFList, leavesDF, List.append_nil,
        List.mem_append] at hleaf
      rcases hleaf with hleaf | hleaf
      · exact generateTree_leaves_action b E gen (depth - 1) s2 out.state
          ((conv ++ [mkGpt (gen ctr text)]) ++ [mkHuman out.state])
          (cr + 1) (ctr + 1) hb hgen leaf hleaf
      · exact genBranches_leaves_action b E gen depth s obs conv text cr
          (generateTree b E gen none (depth - 1) s2 out.state
            ((conv ++ [mkGpt (gen ctr text)]) ++ [mkHuman out.state])
            (cr + 1) (ctr + 1)).2 k' hb hgen leaf hleaf
    · rw [dif_neg h] at hleaf
      simp only [leavesDFList, leavesDF, List.mem_append,
        List.mem_singleton] at hleaf
      rcases hleaf with rfl | hleaf
      · simpa [TrajectoryNode.action] using hgen ctr text
      · exact genBranches_leaves_action b E gen depth s obs conv text cr
          (ctr + 1) k' hb hgen leaf hleaf
termination_by (depth, k)

end

mutual

theorem pathTraces_lastQD (t : TrajectoryNode)
    (h : ∀ leaf ∈ leavesDF t, leaf.action ≠ "") (acc : List ℚ) :
    (pathTraces t acc).map (fun l => lastQD l 0) =
      (leavesDF t).map TrajectoryNode.reward := by
  rcases t with ⟨obs, th, act, rew, dn, children⟩
  rcases children with _ | ⟨c, cs⟩
  · have hact : act ≠ "" := by
      have hmem := h (TrajectoryNode.mk obs th act rew dn (by exact []))
        (by simp [leavesDF])
      simpa [TrajectoryNode.action] using hmem
    simp [pathTraces, leavesDF, hact, lastQD_append_single,
      TrajectoryNode.reward]
  · simp only [pathTraces, leavesDF]
    have h' : ∀ leaf ∈ leavesDFList (c :: cs), leaf.action ≠ "" := by
      intro leaf hleaf
      exact h leaf (by simp [leavesDF, hleaf])
    exact pathTracesList_lastQD (c :: cs) h'
      (if act = "" then acc else acc ++ [rew])

theorem pathTracesList_lastQD (l : List TrajectoryNode)
    (h : ∀ leaf ∈ leavesDFList l, leaf.action ≠ "") (acc : List ℚ) :
    (pathTracesList l acc).map (fun x => lastQD x 0) =
      (leavesDFList l).map TrajectoryNode.reward := by
  rcases l with _ | ⟨c, cs⟩
  · simp [pathTracesList, leavesDFList]
  · simp only [pathTracesList, leavesDFList, List.map_append]
    have hc : ∀ leaf ∈ leavesDF c, leaf.action ≠ "" := by
      intro leaf hleaf
      exact h leaf (by simp [leavesDFList, hleaf])
    have hcs : ∀ leaf ∈ leavesDFList cs, leaf.action ≠ "" := by
      intro leaf hleaf
      exact h leaf (by simp [leavesDFList, hleaf])
    rw [pathTraces_lastQD c hc acc, pathTracesList_lastQD cs hcs acc]

end

/-! ## Claims C1, C3, C4 -/

theorem mctsLoop_reward_eq {σ : Type} (numSims : Nat) (E : EnvModel σ)
    (gen : Nat → String → String) :
    ∀ (k : Nat) (s : σ) (conv : List ConversationMessage) (text : String)
      (r : ℚ) (ctr : Nat) (fin : List ConversationMessage × String × ℚ)
      (ctr2 : Nat),
      mctsLoop numSims E gen k s conv text r ctr = (Except.ok fin, ctr2) →
      fin.2.2 = lastRewardD (mctsSteps numSims E gen k s text ctr) r := by
  intro k
  induction k with
  | zero =>
    intro s conv text r ctr fin ctr2 h
    rw [mctsLoop] at h
    simp only [Prod.mk.injEq, Except.ok.injEq] at h
    rw [← h.1]
    simp [mctsSteps, lastRewardD]
  | succ k ih =>
    intro s conv text r ctr fin ctr2 h
    rw [mctsLoop] at h
    rw [mctsSteps]
    rcases hrm : (runMcts numSims E gen s text ctr).1 with e | a
    · rw [hrm] at h
      simp at h
    · rw [hrm] at h
      simp only at h
      rcases hso : E.step s a with ⟨out, s2⟩
      rw [hso] at h
      simp only at h
      by_cases hd : out.done = true
      · rw [if_pos hd] at h
        simp only [Prod.mk.injEq, Except.ok.injEq] at h
        rw [← h.1]
        simp [hso, hd, lastRewardD]
      · rw [if_neg hd] at h
        have := ih s2 (conv ++ [mkGpt a] ++ [mkHuman out.state])
          (text ++ "\nAssistant: " ++ a ++ "\nHuman: " ++ out.state)
          out.reward (runMcts numSims E gen s text ctr).2 fin ctr2 h
        rw [this]
        have hd' : out.done = false := by
          rcases hx : out.done with _ | _
          · rfl
          · exact absurd hx hd
        simp [hso, hd', lastRewardD]

/-- C1 (amended).  Sequential part: the single Experience's reward equals
the reward of the last transition actually performed (default `0` when no
step happened).  Tree part: when `max_rounds` is `None` (no truncation),
with at least one branch per node and non-empty generated utterances, each
extracted Experience's reward equals the reward of the last step call along
its root-to-leaf path.  (The original claim fails when `max_rounds`
truncates a Tree-Exploring path: the synthetic cut-off node's default
`0.0` reward is used instead of the last step's reward, see the
counterexample.)  Search-guided part: when the rollout completes, the
single Experience's reward equals the reward of the last transition
committed on the real client. -/
theorem C1_experience_reward_eq_last_step :
    (∀ (σ : Type) (E : EnvModel σ) (gen : Nat → String → String)
      (tok : String → List Nat) (convStart : List ConversationMessage)
      (s : σ) (obs : String) (m : Nat),
      (reactExecute E gen tok convStart s obs m).map ExperienceOutput.reward =
        [lastRewardD
          (reactSteps E gen m s (buildText (convStart ++ [mkHuman obs])) 0)
          0]) ∧
    (∀ (σ : Type) (E : EnvModel σ) (gen : Nat → String → String)
      (tok : String → List Nat) (depth : Nat)
      (convStart : List ConversationMessage) (s : σ) (obs : String)
      (ctr b : Nat), 1 ≤ b → (∀ n t, gen n t ≠ "") →
      (totExecute b E gen tok none depth convStart s obs ctr).map
          ExperienceOutput.reward =
        (pathTraces (totTree b E gen none depth convStart s obs ctr) []).map
          (fun l => lastQD l 0)) ∧
    (∀ (σ : Type) (E : EnvModel σ) (gen : Nat → String → String)
      (tok : String → List Nat) (convStart : List ConversationMessage)
      (s : σ) (obs : String) (numSims m : Nat)
      (exps : List ExperienceOutput),
      mctsExecute numSims E gen tok convStart s obs m = Except.ok exps →
      exps.map ExperienceOutput.reward =
        [lastRewardD
          (mctsSteps numSims E gen m s
            (buildText (convStart ++ [mkHuman obs])) 0)
          0]) := by
  refine ⟨?_, ?_, ?_⟩
  · intro σ E gen tok convStart s obs m
    simp only [reactExecute, List.map_cons, List.map_nil, createExperienceOutput]
    rw [reactLoop_reward_eq]
  · intro σ E gen tok depth convStart s obs ctr b hb hgen
    rw [show totExecute b E gen tok none depth convStart s obs ctr =
      extractPaths tok (totTree b E gen none depth convStart s obs ctr) []
      from rfl]
    rw [extractPaths_map_reward]
    refine (pathTraces_lastQD _ ?_ []).symm
    exact generateTree_leaves_action b E gen depth s obs
      (convStart ++ [mkHuman obs]) 0 ctr hb hgen
  · intro σ E gen tok convStart s obs numSims m exps h
    simp only [mctsExecute] at h
    rcases hml : mctsLoop numSims E gen m s (convStart ++ [mkHuman obs])
        (buildText (convStart ++ [mkHuman obs])) 0 0 with ⟨res1, ctrx⟩
    rw [hml] at h
    rcases res1 with e | fin
    · simp at h
    · simp only [Except.ok.injEq] at h
      rw [← h]
      simp only [List.map_cons, List.map_nil, createExperienceOutput]
      rw [mctsLoop_reward_eq numSims E gen m s
        (convStart ++ [mkHuman obs]) (buildText (convStart ++ [mkHuman obs]))
        0 0 fin ctrx hml]

/-- C1 witness: concrete instantiation of the tree part of
`C1_experience_reward_eq_last_step` with `b = 1`, `depth = 1`. -/
theorem C1_witness :
    (totExecute 1 envDone genAct tokNil none 1 [] () "o" 0).map
        ExperienceOutput.reward =
      (pathTraces (totTree 1 envDone genAct none 1 [] () "o" 0) []).map
        (fun l => lastQD l 0) :=
  C1_experience_reward_eq_last_step.2.1 Unit envDone genAct tokNil 1 [] ()
    "o" 0 1 (by decide) (fun n t => by simp [genAct])

/-- C1 counterexample: with `branch_factor = 1`, `depth = 2`,
`max_rounds = 1`, an environment whose step yields reward `1` without
`done`, the extracted Experience's reward is the truncation node's default
`0.0`, not the reward `1` of the last step call taken along the path. -/
theorem C1_cex_truncated_path :
    ¬ ((totExecute 1 envOneStep genAct tokNil (some 1) 2 [] () "o" 0).map
        ExperienceOutput.reward =
      (pathTraces (totTree 1 envOneStep genAct (some 1) 2 [] () "o" 0)
        []).map (fun l => lastQD l 0)) := by
  have h1 : (totExecute 1 envOneStep genAct tokNil (some 1) 2 [] () "o"
      0).map ExperienceOutput.reward = [0] := by
    simp [totExecute, totTree, generateTree.eq_def, genBranches.eq_def,
      extractPaths, extractPathsList, buildText, createExperienceOutput,
      envOneStep, genAct, tokNil, mkHuman, mkGpt, pathToConversation]
  have h2 : (pathTraces (totTree 1 envOneStep genAct (some 1) 2 [] () "o" 0)
      []).map (fun l => lastQD l 0) = [1] := by
    simp [totTree, generateTree.eq_def, genBranches.eq_def, pathTraces,
      pathTracesList, buildText, envOneStep, genAct, mkHuman, mkGpt, lastQD]
  rw [h1, h2]
  simp

/-- C3: a Tree-Exploring rollout with `branch_factor ≥ 1` and
`max_depth ≥ 1` returns exactly one Experience per leaf of the generated
tree (a node is a leaf iff its `children` list is empty), at most
`b ^ depth` of them, and the Experiences carry the leaves' rewards in
depth-first, branch-generation order. -/
theorem C3_tot_count_and_order :
    ∀ (σ : Type) (E : EnvModel σ) (gen : Nat → String → String)
      (tok : String → List Nat) (maxRounds : Option Nat) (depth b : Nat)
      (convStart : List ConversationMessage) (s : σ) (obs : String)
      (ctr : Nat), 1 ≤ b → 1 ≤ depth →
      (totExecute b E gen tok maxRounds depth convStart s obs ctr).length =
        (leavesDF (totTree b E gen maxRounds depth convStart s obs
          ctr)).length ∧
      (leavesDF (totTree b E gen maxRounds depth convStart s obs
        ctr)).length ≤ b ^ depth ∧
      (totExecute b E gen tok maxRounds depth convStart s obs ctr).map
          ExperienceOutput.reward =
        (leavesDF (totTree b E gen maxRounds depth convStart s obs ctr)).map
          TrajectoryNode.reward := by
  intro σ E gen tok maxRounds depth b convStart s obs ctr hb hd
  refine ⟨?_, ?_, ?_⟩
  · exact extractPaths_length tok
      (totTree b E gen maxRounds depth convStart s obs ctr) []
  · exact generateTree_leaves_le b E gen maxRounds depth s obs
      (convStart ++ [mkHuman obs]) 0 ctr hb hd
  · exact extractPaths_map_reward tok
      (totTree b E gen maxRounds depth convStart s obs ctr) []

/-- C3 witness: concrete instantiation with `b = 1`, `depth = 1`. -/
theorem C3_witness :
    (totExecute 1 envDone genAct tokNil none 1 [] () "o" 0).length =
      (leavesDF (totTree 1 envDone genAct none 1 [] () "o" 0)).length ∧
    (leavesDF (totTree 1 envDone genAct none 1 [] () "o" 0)).length ≤
      1 ^ 1 ∧
    (totExecute 1 envDone genAct tokNil none 1 [] () "o" 0).map
        ExperienceOutput.reward =
      (leavesDF (totTree 1 envDone genAct none 1 [] () "o" 0)).map
        TrajectoryNode.reward :=
  C3_tot_count_and_order Unit envDone genAct tokNil none 1 1 [] () "o" 0
    (by decide) (by decide)

/-- C4: a Sequential rollout returns exactly one `ExperienceOutput`; its
reward is the reward of the last `step` call (default `0.0` when zero
rounds completed, e.g. `max_rounds = 0`); at most `max_rounds` transitions
are performed and every transition except possibly the last reported
`done = false` (so the loop stops at the first `done` or at the round
limit, whichever comes first, the latter being a normal return). -/
theorem C4_react_termination :
    ∀ (σ : Type) (E : EnvModel σ) (gen : Nat → String → String)
      (tok : String → List Nat) (convStart : List ConversationMessage)
      (s : σ) (obs : String) (m : Nat),
      (reactExecute E gen tok convStart s obs m).length = 1 ∧
      (reactExecute E gen tok convStart s obs m).map
          ExperienceOutput.reward =
        [lastRewardD
          (reactSteps E gen m s (buildText (convStart ++ [mkHuman obs])) 0)
          0] ∧
      (reactSteps E gen m s (buildText (convStart ++ [mkHuman obs]))
        0).length ≤ m ∧
      (∀ out ∈ (reactSteps E gen m s
          (buildText (convStart ++ [mkHuman obs])) 0).dropLast,
        out.done = false) ∧
      (m = 0 →
        (reactExecute E gen tok convStart s obs m).map
          ExperienceOutput.reward = [0]) := by
  intro σ E gen tok convStart s obs m
  refine ⟨by simp [reactExecute], ?_, ?_, ?_, ?_⟩
  · simp only [reactExecute, List.map_cons, List.map_nil,
      createExperienceOutput]
    rw [reactLoop_reward_eq]
  · exact reactSteps_length_le E gen m s _ 0
  · exact reactSteps_dropLast_not_done E gen m s _ 0
  · intro hm
    subst hm
    simp [reactExecute, createExperienceOutput, reactLoop]

/-- C4 witness: concrete instantiation with `max_rounds = 0` and a
terminating environment. -/
theorem C4_witness :
    (reactExecute envDone genAct tokNil [] () "o" 0).length = 1 ∧
    (reactExecute envDone genAct tokNil [] () "o" 0).map
        ExperienceOutput.reward =
      [lastRewardD
        (reactSteps envDone genAct 0 () (buildText ([] ++ [mkHuman "o"])) 0)
        0] ∧
    (reactSteps envDone genAct 0 () (buildText ([] ++ [mkHuman "o"]))
      0).length ≤ 0 ∧
    (∀ out ∈ (reactSteps envDone genAct 0 ()
        (buildText ([] ++ [mkHuman "o"])) 0).dropLast,
      out.done = false) ∧
    (0 = 0 →
      (reactExecute envDone genAct tokNil [] () "o" 0).map
        ExperienceOutput.reward = [0]) :=
  C4_react_termination Unit envDone genAct tokNil [] () "o" 0

/-- C5: `WebEnvClient.step` never propagates a transport or decoding
failure: any caught exception (including a missing `state` key) yields a
`StepOutput` with `done = true`, `reward = 0.0` and a diagnostic
`"Error: ..."` state; a successful response lacking `reward` defaults it
to `0.0` and one lacking `done` defaults it to `false`. -/
theorem C5_webstep_failures_and_defaults :
    ∀ (resp : StepHttpResult) (c : WebClientState),
      (∀ msg, resp = StepHttpResult.failure msg →
        (webStep resp c).1 = ⟨"Error: " ++ msg, 0, true⟩) ∧
      (∀ rw dn, resp = StepHttpResult.success none rw dn →
        (webStep resp c).1.done = true ∧ (webStep resp c).1.reward = 0 ∧
        (webStep resp c).1.state = "Error: " ++ "'state'") ∧
      (∀ sv dn, resp = StepHttpResult.success (some sv) none dn →
        (webStep resp c).1.reward = 0) ∧
      (∀ sv rw, resp = StepHttpResult.success (some sv) rw none →
        (webStep resp c).1.done = false) ∧
      (∀ sv rw dn, resp = StepHttpResult.success (some sv) rw dn →
        (webStep resp c).1.state = sv) := by
  intro resp c
  refine ⟨?_, ?_, ?_, ?_, ?_⟩
  · rintro msg rfl; simp [webStep]
  · rintro rw dn rfl; simp [webStep]
  · rintro sv dn rfl; simp [webStep]
  · rintro sv rw rfl; simp [webStep]
  · rintro sv rw dn rfl; simp [webStep]

/-- C5 witness: a concrete transport failure and a concrete response
missing `reward` and `done`. -/
theorem C5_witness :
    (webStep (StepHttpResult.failure "timeout") ⟨"old", 0⟩).1 =
      ⟨"Error: " ++ "timeout", 0, true⟩ ∧
    (webStep (StepHttpResult.success (some "s1") none none) ⟨"old", 0⟩).1.reward
      = 0 ∧
    (webStep (StepHttpResult.success (some "s1") none none) ⟨"old", 0⟩).1.done
      = false :=
  ⟨(C5_webstep_failures_and_defaults (StepHttpResult.failure "timeout")
      ⟨"old", 0⟩).1 "timeout" rfl,
    (C5_webstep_failures_and_defaults
      (StepHttpResult.success (some "s1") none none) ⟨"old", 0⟩).2.2.1 "s1"
      none rfl,
    (C5_webstep_failures_and_defaults
      (StepHttpResult.success (some "s1") none none) ⟨"old", 0⟩).2.2.2.1 "s1"
      none rfl⟩

/-- C2 (amended): when the storage save raises inside `_rollout_one`, the
exception propagates to `rollout`'s per-index handler, which logs it and
*drops* that index's already-computed Experiences from the returned
list. -/
theorem C2_save_failure_drops_results :
    ∀ (σ τ : Type) (E : EnvModel σ)
      (strat : σ → String → List ExperienceOutput × σ)
      (store : StoreModel τ) (meta : List (String × String))
      (envName : String) (idx : Nat) (s : σ) (t : τ) (e : String),
      (rolloutOne E strat store true meta envName idx s t).1 =
        Except.error e →
      (rolloutSeq E strat store true meta envName [idx] s t).1 = [] := by
  intro σ τ E strat store meta envName idx s t e h
  simp [rolloutSeq, h]

/-- C2 witness: concrete failing save drops the single Experience. -/
theorem C2_witness :
    (rolloutSeq envC2 stratOne storeFail true [] "env" [3] () ()).1 = [] :=
  C2_save_failure_drops_results Unit Unit envC2 stratOne storeFail [] "env"
    3 () () "disk full" rfl

/-- C2 counterexample: the strategy computed one in-memory Experience,
the save raised, and `rollout` returned the empty list — the
already-computed Experience is *not* included in the result. -/
theorem C2_cex_lost_experiences :
    (rolloutSeq envC2 stratOne storeFail true [] "env" [0] () ()).1 = [] ∧
    (stratOne (envC2.reset () 0) (envC2.observe (envC2.reset () 0))).1 ≠ []
    := by
  constructor
  · rfl
  · simp [stratOne, envC2]

/-- C9: every per-index rollout operates on the one shared
`task.clients[0]` instance — no clone is taken, so environment-client
state mutated by one rollout is visible to the next.  Concretely, against
a server whose state survives `reset`, the Experience produced for index
`1` differs depending on whether index `0` ran before it: the rollouts
share the client mutably, contradicting the required clone-per-worker
isolation. -/
theorem C9_shared_client_mutation :
    ((rolloutSeq envShared stratStep storeNoop false [] "env" [0, 1] 0
        ()).1.map ExperienceOutput.text = ["0", "1"]) ∧
    ((rolloutSeq envShared stratStep storeNoop false [] "env" [1] 0
        ()).1.map ExperienceOutput.text = ["0"]) := by
  constructor
  · rfl
  · rfl

/-- C10: `rollout` uses exclusively `tasks[0]`, its `clients[0]` and
`idxs[0]`: the produced Experiences and storage state are exactly those of
running the index list `idxs[0]` against `tasks[0].clients[0]`; all other
clients of the first task and all later tasks are returned unchanged
(never reset or stepped), and the result does not depend on them nor on
the index lists supplied for the other tasks. -/
theorem C10_only_first_task_first_client :
    ∀ (σ τ : Type) (E : EnvModel σ)
      (strat : σ → String → List ExperienceOutput × σ)
      (store : StoreModel τ) (saveFlag : Bool)
      (meta : List (String × String)) (name : String) (c : σ) (cs : List σ)
      (ts : List (String × List σ)) (is : List Nat)
      (iss : List (List Nat)) (t : τ),
      controllerRollout E strat store saveFlag meta ((name, c :: cs) :: ts)
          (is :: iss) t =
        some ((rolloutSeq E strat store saveFlag meta name is c t).1,
          (name,
            (rolloutSeq E strat store saveFlag meta name is c t).2.1 :: cs)
            :: ts,
          (rolloutSeq E strat store saveFlag meta name is c t).2.2) ∧
      (∀ (cs' : List σ) (ts' : List (String × List σ))
        (iss' : List (List Nat)),
        (controllerRollout E strat store saveFlag meta
            ((name, c :: cs') :: ts') (is :: iss') t).map
            (fun r => (r.1, r.2.2)) =
          (controllerRollout E strat store saveFlag meta
            ((name, c :: cs) :: ts) (is :: iss) t).map
            (fun r => (r.1, r.2.2))) := by
  intro σ τ E strat store saveFlag meta name c cs ts is iss t
  constructor
  · rfl
  · intro cs' ts' iss'
    rfl

theorem find?_append_of_none {α : Type} (p : α → Bool) (l₁ l₂ : List α)
    (h : l₁.find? p = none) : (l₁ ++ l₂).find? p = l₂.find? p := by
  induction l₁ with
  | nil => simp
  | cons a l ih =>
    rcases hp : p a with _ | _
    · rw [List.cons_append, List.find?_cons_of_neg _ (by simp [hp])]
      rw [List.find?_cons_of_neg _ (by simp [hp])] at h
      exact ih h
    · rw [List.find?_cons_of_pos _ hp] at h
      exact absurd h (by simp)

theorem getTrajectory_fsAddFiles_fresh (fs : FileStore) (env gid : String)
    (rec1 : TrajRecord)
    (hf : ∀ p ∈ fs, ∀ f ∈ p.2, f.1 ≠ gid) :
    getTrajectory (fsAddFiles fs env [(gid, rec1)]) gid = some rec1 := by
  induction fs with
  | nil => simp [fsAddFiles, getTrajectory, List.find?]
  | cons p rest ih =>
    rcases p with ⟨e, fl⟩
    have hfl : fl.find? (fun f => f.1 == gid) = none := by
      rw [List.find?_eq_none]
      intro f hfmem
      have := hf (e, fl) (by simp) f hfmem
      simpa using this
    rcases he : e == env with _ | _
    · simp only [fsAddFiles, he, Bool.false_eq_true, if_false, getTrajectory,
        hfl]
      exact ih (fun q hq f hfm => hf q (by simp [hq]) f hfm)
    · simp only [fsAddFiles, he, if_true, getTrajectory]
      rw [find?_append_of_none _ _ _ hfl]
      simp [List.find?]

/-- C6: storage round-trip.  If the freshly generated id does not collide
with any existing file (the `uuid4` assumption), then saving one
trajectory and reading the returned id back yields a record carrying
exactly the saved trajectory, environment name, task id and metadata,
plus the generated id and timestamp. -/
theorem C6_storage_roundtrip :
    ∀ (genId : Nat → String) (now : Nat → String) (fs : FileStore)
      (nextId : Nat) (env : String) (tid : Nat) (tr : Traj)
      (meta : List (String × String)),
      (∀ p ∈ fs, ∀ f ∈ p.2, f.1 ≠ genId nextId) →
      (saveTrajectories genId now fs nextId env [tid] [tr] meta).1 =
        [genId nextId] ∧
      getTrajectory
          (saveTrajectories genId now fs nextId env [tid] [tr] meta).2.1
          (genId nextId) =
        some ⟨genId nextId, env, tid, now nextId, meta, tr⟩ := by
  intro genId now fs nextId env tid tr meta hf
  constructor
  · simp [saveTrajectories, saveRecords]
  · show getTrajectory (fsAddFiles fs env
        (saveRecords genId now env meta ([tid].zip [tr]) nextId).2)
        (genId nextId) = _
    have hsr : (saveRecords genId now env meta ([tid].zip [tr]) nextId).2 =
        [(genId nextId,
          ⟨genId nextId, env, tid, now nextId, meta, tr⟩)] := by
      simp [saveRecords]
    rw [hsr]
    exact getTrajectory_fsAddFiles_fresh fs env (genId nextId) _ hf

/-- C6 witness: round-trip through an empty store. -/
theorem C6_witness :
    (saveTrajectories (fun n => "id-" ++ toString n)
      (fun _ => "2026-01-01T00:00:00")
      [] 0 "web" [4] [⟨1, [mkHuman "o"], "t"⟩] []).1 = ["id-" ++ toString 0] ∧
    getTrajectory
        (saveTrajectories (fun n => "id-" ++ toString n)
          (fun _ => "2026-01-01T00:00:00") [] 0 "web" [4]
          [⟨1, [mkHuman "o"], "t"⟩]
          []).2.1 ("id-" ++ toString 0) =
      some ⟨"id-" ++ toString 0, "web", 4, "2026-01-01T00:00:00", [],
        ⟨1, [mkHuman "o"], "t"⟩⟩ :=
  C6_storage_roundtrip (fun n => "id-" ++ toString n)
    (fun _ => "2026-01-01T00:00:00")
    [] 0 "web" 4 ⟨1, [mkHuman "o"], "t"⟩ [] (by simp)

theorem dictInsert_key_mem (acc : List (String × ℚ)) (k : String) (v : ℚ) :
    ∀ kv ∈ dictInsert acc k v, kv.1 ∈ acc.map Prod.fst ∨ kv.1 = k := by
  induction acc with
  | nil => simp [dictInsert]
  | cons p rest ih =>
    intro kv hkv
    rcases hp : p.1 == k with _ | _
    · rw [dictInsert, if_neg (by simp_all)] at hkv
      rcases List.mem_cons.mp hkv with rfl | h2
      · left; simp
      · rcases ih kv h2 with h3 | h3
        · left; simp [h3]
        · right; exact h3
    · rw [dictInsert, if_pos (by simp_all)] at hkv
      rcases List.mem_cons.mp hkv with rfl | h2
      · left; simp
      · left; simp [List.mem_map.mp (List.mem_map_of_mem Prod.fst h2)]

theorem dictInsert_ne_nil (acc : List (String × ℚ)) (k : String) (v : ℚ) :
    dictInsert acc k v ≠ [] := by
  cases acc with
  | nil => simp [dictInsert]
  | cons p rest =>
    rw [dictInsert]
    split <;> simp

theorem scoreCandidates_ok_spec {σ : Type} (E : EnvModel σ)
    (gen : Nat → String → String) (s : σ) (text : String) (simsPer : Nat)
    (hs : simsPer ≠ 0) :
    ∀ (cands : List String) (ctr : Nat) (acc : List (String × ℚ)),
      ∃ scores ctr2,
        scoreCandidates E gen s text simsPer cands ctr acc =
          (Except.ok scores, ctr2) ∧
        (∀ kv ∈ scores, kv.1 ∈ acc.map Prod.fst ∨ kv.1 ∈ cands) ∧
        (acc ≠ [] ∨ cands ≠ [] → scores ≠ []) := by
  intro cands
  induction cands with
  | nil =>
    intro ctr acc
    refine ⟨acc, ctr, rfl, ?_, ?_⟩
    · intro kv hkv
      exact Or.inl (List.mem_map_of_mem Prod.fst hkv)
    · intro h
      rcases h with h | h
      · exact h
      · exact absurd rfl h
  | cons a rest ih =>
    intro ctr acc
    obtain ⟨scores, ctr2, heq, hkeys, hne⟩ := ih
      (simulateAction E gen s text a simsPer ctr).2
      (dictInsert acc a
        ((simulateAction E gen s text a simsPer ctr).1 / (simsPer : ℚ)))
    refine ⟨scores, ctr2, ?_, ?_, ?_⟩
    · rw [scoreCandidates, if_neg (by simpa using hs)]
      exact heq
    · intro kv hkv
      rcases hkeys kv hkv with h | h
      · rcases List.mem_map.mp h with ⟨kv2, hkv2, hfst⟩
        rcases dictInsert_key_mem acc a _ kv2 hkv2 with h2 | h2
        · rw [← hfst]; exact Or.inl h2
        · right; simp [← hfst, h2]
      · right; simp [h]
    · intro _
      exact hne (Or.inl (dictInsert_ne_nil acc a _))

theorem maxByFirst_mem :
    ∀ (rest : List (String × ℚ)) (a : String) (v : ℚ),
      maxByFirst a v rest = a ∨ maxByFirst a v rest ∈ rest.map Prod.fst := by
  intro rest
  induction rest with
  | nil => intro a v; left; rfl
  | cons p l ih =>
    intro a v
    rw [maxByFirst]
    split
    · rcases ih p.1 p.2 with h | h
      · right; simp [h]
      · right; simp [h]
    · rcases ih a v with h | h
      · left; exact h
      · right; simp [h]

theorem runMcts_ok_mem {σ : Type} (numSims : Nat) (E : EnvModel σ)
    (gen : Nat → String → String) (hn : 5 ≤ numSims) :
    ∀ (s : σ) (text : String) (ctr : Nat),
      ∃ a, (runMcts numSims E gen s text ctr).1 = Except.ok a ∧
        a ∈ (mctsCandidates gen text ctr).1 := by
  intro s text ctr
  have hlen : (mctsCandidates gen text ctr).1.length = 5 := by
    simp [mctsCandidates]
  have hsp : numSims / (mctsCandidates gen text ctr).1.length ≠ 0 := by
    rw [hlen]
    have : 1 ≤ numSims / 5 := (Nat.one_le_div_iff (by omega)).mpr hn
    omega
  obtain ⟨scores, ctr2, heq, hkeys, hne⟩ :=
    scoreCandidates_ok_spec E gen s text
      (numSims / (mctsCandidates gen text ctr).1.length) hsp
      (mctsCandidates gen text ctr).1 (mctsCandidates gen text ctr).2 []
  have hscons : scores ≠ [] := by
    apply hne
    right
    intro hc
    rw [hc] at hlen
    simp at hlen
  rcases hsc : scores with _ | ⟨⟨a0, v0⟩, restScores⟩
  · exact absurd hsc hscons
  · refine ⟨maxByFirst a0 v0 restScores, ?_, ?_⟩
    · rw [runMcts]
      simp only [heq, hsc]
    · rcases maxByFirst_mem restScores a0 v0 with h | h
      · rw [h]
        have := hkeys (a0, v0) (by simp [hsc])
        simpa using this
      · rcases List.mem_map.mp h with ⟨kv, hkv, hfst⟩
        have := hkeys kv (by simp [hsc, hkv])
        rcases this with h2 | h2
        · simp at h2
        · rw [← hfst]; exact h2

theorem mctsLoop_ok {σ : Type} (numSims : Nat) (E : EnvModel σ)
    (gen : Nat → String → String) (hn : 5 ≤ numSims) :
    ∀ (k : Nat) (s : σ) (conv : List ConversationMessage) (text : String)
      (r : ℚ) (ctr : Nat),
      ∃ fin ctr2,
        mctsLoop numSims E gen k s conv text r ctr = (Except.ok fin, ctr2)
    := by
  intro k
  induction k with
  | zero => intro s conv text r ctr; exact ⟨(conv, text, r), ctr, rfl⟩
  | succ k ih =>
    intro s conv text r ctr
    obtain ⟨a, ha, _⟩ := runMcts_ok_mem numSims E gen hn s text ctr
    rcases hr : runMcts numSims E gen s text ctr with ⟨ra, rctr⟩
    rw [hr] at ha
    simp only at ha
    subst ha
    rcases hso : E.step s a with ⟨out, s2⟩
    by_cases hd : out.done = true
    · refine ⟨(conv ++ [mkGpt a] ++ [mkHuman out.state],
        text ++ "\nAssistant: " ++ a ++ "\nHuman: " ++ out.state,
        out.reward), rctr, ?_⟩
      rw [mctsLoop]
      simp only [hr, hso, hd, if_true]
    · obtain ⟨fin, ctr2, hloop⟩ := ih s2
        (conv ++ [mkGpt a] ++ [mkHuman out.state])
        (text ++ "\nAssistant: " ++ a ++ "\nHuman: " ++ out.state)
        out.reward rctr
      refine ⟨fin, ctr2, ?_⟩
      rw [mctsLoop]
      simp only [hr, hso, hd, if_false, hloop, Bool.false_eq_true]

/-- C8 (amended): with `num_simulations ≥ 5` (the strategy always
generates exactly 5 candidates, so `num_simulations // 5 ≥ 1` simulations
run per candidate), every round's `_run_mcts` succeeds and returns an
action among that round's generated candidates, and the invocation
produces exactly one `ExperienceOutput`.  (With `1 ≤ num_simulations < 5`
the integer division yields 0 simulations per candidate and the score
division raises `ZeroDivisionError`, so no Experience is produced — see
the counterexample.) -/
theorem C8_mcts_candidates_and_count :
    ∀ (σ : Type) (E : EnvModel σ) (gen : Nat → String → String)
      (tok : String → List Nat) (convStart : List ConversationMessage)
      (s : σ) (obs : String) (numSims m : Nat),
      5 ≤ numSims →
      (∃ exps, mctsExecute numSims E gen tok convStart s obs m =
        Except.ok exps ∧ exps.length = 1) ∧
      (∀ (s' : σ) (text : String) (ctr : Nat),
        ∃ a, (runMcts numSims E gen s' text ctr).1 = Except.ok a ∧
          a ∈ (mctsCandidates gen text ctr).1) := by
  intro σ E gen tok convStart s obs numSims m hn
  constructor
  · obtain ⟨fin, ctr2, hloop⟩ := mctsLoop_ok numSims E gen hn m s
      (convStart ++ [mkHuman obs]) (buildText (convStart ++ [mkHuman obs]))
      0 0
    refine ⟨[createExperienceOutput tok fin.1 fin.2.2 fin.2.1], ?_, rfl⟩
    rw [mctsExecute]
    simp only [hloop]
  · exact runMcts_ok_mem numSims E gen hn

/-- C8 witness: a concrete instantiation with `num_simulations = 5`. -/
theorem C8_witness :
    (∃ exps, mctsExecute 5 envDone genAct tokNil [] () "o" 1 =
      Except.ok exps ∧ exps.length = 1) ∧
    (∀ (s' : Unit) (text : String) (ctr : Nat),
      ∃ a, (runMcts 5 envDone genAct s' text ctr).1 = Except.ok a ∧
        a ∈ (mctsCandidates genAct text ctr).1) :=
  C8_mcts_candidates_and_count Unit envDone genAct tokNil [] () "o" 5 1
    (by decide)

/-- C8 counterexample: with `num_simulations = 1` (and any positive round
budget) the integer division `1 // 5 = 0` makes the per-candidate score
division raise `ZeroDivisionError`; the rollout aborts and produces no
`ExperienceOutput` instead of exactly one. -/
theorem C8_cex_zero_division :
    mctsExecute 1 envOneStep genAct tokNil [] () "o" 1 =
      Except.error "ZeroDivisionError" := by
  rfl

theorem skeyLe_total : ∀ x y : SKey, skeyLe x y = true ∨ skeyLe y x = true := by
  intro x y
  rcases x with a | a <;> rcases y with b | b
  · simp only [skeyLe, decide_eq_true_eq]
    exact le_total a b
  · left; rfl
  · right; rfl
  · simp only [skeyLe, decide_eq_true_eq]
    exact le_total a b

theorem skeyLe_trans : ∀ x y z : SKey, skeyLe x y = true →
    skeyLe y z = true → skeyLe x z = true := by
  intro x y z hxy hyz
  rcases x with a | a <;> rcases y with b | b <;> rcases z with c | c
  · simp only [skeyLe, decide_eq_true_eq] at hxy hyz ⊢
    exact le_trans hxy hyz
  · rfl
  · exact absurd hyz (by simp [skeyLe])
  · rfl
  · exact absurd hxy (by simp [skeyLe])
  · exact absurd hxy (by simp [skeyLe])
  · exact absurd hyz (by simp [skeyLe])
  · simp only [skeyLe, decide_eq_true_eq] at hxy hyz ⊢
    exact le_trans hxy hyz

theorem skeyLe_antisymm : ∀ x y : SKey, skeyLe x y = true →
    skeyLe y x = true → x = y := by
  intro x y hxy hyx
  rcases x with a | a <;> rcases y with b | b
  · simp only [skeyLe, decide_eq_true_eq] at hxy hyx
    rw [le_antisymm hxy hyx]
  · exact absurd hyx (by simp [skeyLe])
  · exact absurd hxy (by simp [skeyLe])
  · simp only [skeyLe, decide_eq_true_eq] at hxy hyx
    rw [le_antisymm hxy hyx]

/-- Two stable sorts of permuted inputs agree whenever the relation is a
total preorder whose ties force equal sort keys and all sort keys are
distinct.  This is the only fact about sorting the listing-equivalence
claim needs: it makes the (unstable, tie-unspecified) database sort agree
with Python's stable in-memory sort. -/
theorem insertionSort_eq_of_perm_of_nodup {α : Type} (r : α → α → Prop)
    [DecidableRel r] (key : α → SKey)
    (htot : ∀ a b, r a b ∨ r b a)
    (htr : ∀ a b c, r a b → r b c → r a c)
    (hkey : ∀ a b, r a b → r b a → key a = key b)
    (l₁ l₂ : List α) (hperm : l₁.Perm l₂) (hnd : (l₁.map key).Nodup) :
    List.insertionSort r l₁ = List.insertionSort r l₂ := by
  haveI : IsTotal α r := ⟨htot⟩
  haveI : IsTrans α r := ⟨htr⟩
  have hs₁ : List.Sorted r (List.insertionSort r l₁) :=
    List.sorted_insertionSort r l₁
  have hs₂ : List.Sorted r (List.insertionSort r l₂) :=
    List.sorted_insertionSort r l₂
  have hp : (List.insertionSort r l₁).Perm (List.insertionSort r l₂) :=
    ((List.perm_insertionSort r l₁).trans hperm).trans
      (List.perm_insertionSort r l₂).symm
  have hnd₁ : ((List.insertionSort r l₁).map key).Nodup :=
    (((List.perm_insertionSort r l₁).map key).nodup_iff).mpr hnd
  have hnd₂ : ((List.insertionSort r l₂).map key).Nodup :=
    ((hp.map key).nodup_iff).mp hnd₁
  have hpw₁ : List.Pairwise (fun a b => key a ≠ key b)
      (List.insertionSort r l₁) := List.pairwise_map.mp hnd₁
  have hpw₂ : List.Pairwise (fun a b => key a ≠ key b)
      (List.insertionSort r l₂) := List.pairwise_map.mp hnd₂
  haveI : IsAntisymm α (fun a b => r a b ∧ key a ≠ key b) :=
    ⟨fun a b hab hba => absurd (hkey a b hab.1 hba.1) hab.2⟩
  exact List.eq_of_perm_of_sorted hp (List.Pairwise.and hs₁ hpw₁)
    (List.Pairwise.and hs₂ hpw₂)

theorem recordsOf_filter_env (fs : FileStore) (e : String)
    (hwf : ∀ p ∈ fs, ∀ f ∈ p.2, f.2.env_name = p.1) :
    recordsOf (fs.filter (fun d => d.1 == e)) =
      (recordsOf fs).filter (fun r => r.env_name == e) := by
  induction fs with
  | nil => rfl
  | cons p rest ih =>
    rcases p with ⟨name, files⟩
    have hrest := ih (fun q hq f hf => hwf q (by simp [hq]) f hf)
    have hrec : ∀ r ∈ files.map Prod.snd, r.env_name = name := by
      intro r hr
      rcases List.mem_map.mp hr with ⟨fl, hfl, rfl⟩
      exact hwf (name, files) (by simp) fl hfl
    rcases hne : name == e with _ | _
    · rw [List.filter_cons_of_neg (by simp [hne])]
      rw [hrest]
      have hnil : (files.map Prod.snd).filter
          (fun r => r.env_name == e) = [] := by
        rw [List.filter_eq_nil_iff]
        intro r hr
        rw [hrec r hr]
        simp [hne]
      simp only [recordsOf, List.flatMap_cons, List.filter_append]
      rw [hnil]
      simp [recordsOf]
    · rw [List.filter_cons_of_pos (by simp [hne])]
      have hall : (files.map Prod.snd).filter
          (fun r => r.env_name == e) = files.map Prod.snd := by
        rw [List.filter_eq_self]
        intro r hr
        rw [hrec r hr]
        simpa using hne
      simp only [recordsOf, List.flatMap_cons, List.filter_append]
      rw [hall]
      simp only [recordsOf] at hrest
      rw [hrest]

theorem fileGetTrajectories_eq (fs : FileStore) (envName : Option String)
    (taskId : Option Nat) (limit offset : Nat) (f : SortField)
    (ord : String)
    (hwf : ∀ p ∈ fs, ∀ fl ∈ p.2, fl.2.env_name = p.1) :
    fileGetTrajectories fs envName taskId limit offset f ord =
      ((List.insertionSort (fun a b => listLe f ord a b = true)
        ((recordsOf fs).filter (mongoQuery envName taskId))).drop
        offset).take limit := by
  have hcollect :
      ((match envName with
        | some e => fs.filter (fun d => d.1 == e)
        | none => fs : FileStore).flatMap
          (fun d => d.2.map Prod.snd)).filter
        (fun r => match taskId with
          | some t => r.task_id == t
          | none => true) =
      (recordsOf fs).filter (mongoQuery envName taskId) := by
    rcases envName with _ | e
    · rw [show (recordsOf fs).filter (mongoQuery none taskId) =
          (recordsOf fs).filter (fun r => match taskId with
            | some t => r.task_id == t
            | none => true) from
        List.filter_congr (fun r _ => by simp [mongoQuery])]
      rfl
    · show ((recordsOf (fs.filter (fun d => d.1 == e))).filter _) = _
      rw [recordsOf_filter_env fs e hwf, List.filter_filter]
      exact List.filter_congr (fun r _ => by
        simp only [mongoQuery]
        exact Bool.and_comm _ _)
  simp only [fileGetTrajectories]
  rw [hcollect]

/-- C7 (amended): the file-backed and the MongoDB-backed listings return
identical ordered id lists for the same inserted record set, for every
filter combination, sort field and order, offset, and every `limit ≥ 1`,
provided the sort-key values of the selected records are pairwise
distinct (on ties both backends' orders are unspecified: Python's sort is
stable w.r.t. the OS's arbitrary directory enumeration order, MongoDB's
sort is unstable; and at `limit = 0` they disagree outright, see the
counterexample). -/
theorem C7_listing_equivalence :
    ∀ (fs : FileStore) (docs : List TrajRecord) (envName : Option String)
      (taskId : Option Nat) (limit offset : Nat) (f : SortField)
      (ord : String),
      (∀ p ∈ fs, ∀ fl ∈ p.2, fl.2.env_name = p.1) →
      (recordsOf fs).Perm docs →
      1 ≤ limit →
      ((docs.filter (mongoQuery envName taskId)).map (sortKey f)).Nodup →
      (fileGetTrajectories fs envName taskId limit offset f ord).map
          TrajRecord.id =
        (mongoGetTrajectories docs envName taskId limit offset f ord).map
          TrajRecord.id := by
  intro fs docs envName taskId limit offset f ord hwf hperm hlim hnd
  obtain ⟨l, rfl⟩ : ∃ l, limit = l + 1 := ⟨limit - 1, by omega⟩
  rw [fileGetTrajectories_eq fs envName taskId (l + 1) offset f ord hwf]
  simp only [mongoGetTrajectories]
  rw [if_neg (by simp)]
  have hpermF : ((recordsOf fs).filter (mongoQuery envName taskId)).Perm
      (docs.filter (mongoQuery envName taskId)) :=
    hperm.filter (mongoQuery envName taskId)
  have hndF : (((recordsOf fs).filter (mongoQuery envName taskId)).map
      (sortKey f)).Nodup := ((hpermF.map (sortKey f)).nodup_iff).mpr hnd
  have htot : ∀ a b : TrajRecord,
      listLe f ord a b = true ∨ listLe f ord b a = true := by
    intro a b
    by_cases hdesc : (ord.toLower == "desc") = true
    · simp only [listLe, hdesc, if_true]
      exact skeyLe_total (sortKey f b) (sortKey f a)
    · simp only [listLe, hdesc, if_false, Bool.false_eq_true]
      exact skeyLe_total (sortKey f a) (sortKey f b)
  have htr : ∀ a b c : TrajRecord, listLe f ord a b = true →
      listLe f ord b c = true → listLe f ord a c = true := by
    intro a b c hab hbc
    by_cases hdesc : (ord.toLower == "desc") = true
    · simp only [listLe, hdesc, if_true] at hab hbc ⊢
      exact skeyLe_trans _ _ _ hbc hab
    · simp only [listLe, hdesc, if_false, Bool.false_eq_true] at hab hbc ⊢
      exact skeyLe_trans _ _ _ hab hbc
  have hkey : ∀ a b : TrajRecord, listLe f ord a b = true →
      listLe f ord b a = true → sortKey f a = sortKey f b := by
    intro a b hab hba
    by_cases hdesc : (ord.toLower == "desc") = true
    · simp only [listLe, hdesc, if_true] at hab hba
      exact (skeyLe_antisymm _ _ hab hba).symm
    · simp only [listLe, hdesc, if_false, Bool.false_eq_true] at hab hba
      exact skeyLe_antisymm _ _ hab hba
  rw [insertionSort_eq_of_perm_of_nodup
    (fun a b => listLe f ord a b = true) (sortKey f) htot htr hkey
    ((recordsOf fs).filter (mongoQuery envName taskId))
    (docs.filter (mongoQuery envName taskId)) hpermF hndF]

/-- C7 witness: one record, `limit = 1`. -/
theorem C7_witness :
    (fileGetTrajectories fs7 none none 1 0 SortField.id "asc").map
        TrajRecord.id =
      (mongoGetTrajectories docs7 none none 1 0 SortField.id "asc").map
        TrajRecord.id :=
  C7_listing_equivalence fs7 docs7 none none 1 0 SortField.id "asc"
    (by decide) ((show recordsOf fs7 = docs7 from rfl) ▸
      List.Perm.refl docs7) (by decide) (by decide)

/-- C7 counterexample: `limit = 0`.  Python slices
`trajectories[offset : offset + 0] = []`, while MongoDB's documented
`limit(0)` means "no limit" and returns the matching record — the two
backends' id lists differ. -/
theorem C7_cex_limit_zero :
    ¬ ((fileGetTrajectories fs7 none none 0 0 SortField.id "asc").map
        TrajRecord.id =
      (mongoGetTrajectories docs7 none none 0 0 SortField.id "asc").map
        TrajRecord.id) := by
  decide

end VortexRL